import Mathlib

/-
Verification of the MiniJS engine driver (src/index.js) against its
specification.  The driver class `MiniJSEngine` owns the error flags
`hadError` / `hadRuntimeError`, a single `Interpreter` instance, and the
methods `run`, `runFile`, `runPrompt`, `report`, `runtimeError`.  The
tokenizer, parser and interpreter live in modules that are not part of the
visible sources; following the specification they are treated as pipeline
stages with the interfaces of spec section 6, and the driver is proved
correct for every possible behaviour of those stages wherever the claim
allows it.  Console output and the points at which the driver invokes a
stage are recorded as an explicit event trace.
-/

namespace MiniJS

/-- Runtime value of the object language (spec section 3).  Numbers are
modelled as integers; the driver and the claims below only ever inspect
truthiness and equality of concrete values. -/
inductive Value where
  | num (n : Int)
  | str (s : String)
  | boolean (b : Bool)
  | nullV
  | undef
deriving DecidableEq

/-- JavaScript truthiness as used by the driver in `if (result && ...)`
(src/index.js line 77): 0, false, the empty string, null and undefined are
falsy, everything else truthy. -/
def truthy : Value → Bool
  | Value.num n => decide (n ≠ 0)
  | Value.str s => decide (s ≠ "")
  | Value.boolean b => b
  | Value.nullV => false
  | Value.undef => false

/-- Token kind (spec section 3). -/
inductive TokenKind where
  | punct
  | keyword
  | identifier
  | number
  | stringLit
  | eof
deriving DecidableEq

/-- Token (spec section 3): kind, raw lexeme, optional typed literal value,
source line. -/
structure Token where
  kind : TokenKind
  lexeme : String
  literalValue : Option Value
  line : Nat
deriving DecidableEq

/-- Diagnostic shape of spec section 6: line, location context, message. -/
structure Diagnostic where
  line : Nat
  whereCtx : String
  message : String
deriving DecidableEq

/-- Expression fragment of the AST (spec section 3): literals, identifier
references and assignment to an identifier. -/
inductive Expr where
  | lit (v : Value)
  | ident (name : String)
  | assign (name : String) (e : Expr)
deriving DecidableEq

/-- Statement fragment of the AST (spec section 3): expression statements,
variable declarations with optional initializer, and blocks. -/
inductive Stmt where
  | exprStmt (e : Expr)
  | varDecl (name : String) (init : Option Expr)
  | block (stmts : List Stmt)

/-- One lexical scope: a mapping from names to values, newest binding
first. -/
abbrev Scope := List (String × Value)

/-- The runtime scope chain (spec section 3): the local scopes, innermost
first, together with the distinguished global scope that encloses them
all. -/
structure Chain where
  locals : List Scope
  globals : Scope
deriving DecidableEq

/-- Look a name up through the chain from innermost scope to the global
scope (spec section 4.3). -/
def lookupLocals : List Scope → String → Option Value
  | [], _ => none
  | s :: rest, n =>
    match s.lookup n with
    | some v => some v
    | none => lookupLocals rest n

/-- Full chain lookup: locals first, then the global scope. -/
def lookupChain (c : Chain) (n : String) : Option Value :=
  match lookupLocals c.locals n with
  | some v => some v
  | none => c.globals.lookup n

/-- Bind a name in the current (innermost) scope, the global scope when no
local scope is active (spec section 4.3, variable declaration). -/
def chainDefine (c : Chain) (n : String) (v : Value) : Chain :=
  match c.locals with
  | [] => ⟨[], (n, v) :: c.globals⟩
  | s :: rest => ⟨((n, v) :: s) :: rest, c.globals⟩

/-- Assign to the first local scope that defines the name. -/
def assignLocals : List Scope → String → Value → Option (List Scope)
  | [], _, _ => none
  | s :: rest, n, v =>
    if (s.lookup n).isSome then some (((n, v) :: s) :: rest)
    else
      match assignLocals rest n v with
      | some r => some (s :: r)
      | none => none

/-- Assignment walks the chain innermost-to-global and updates the first
scope that defines the name; assigning an undeclared name fails (spec
section 4.3). -/
def chainAssign (c : Chain) (n : String) (v : Value) : Option Chain :=
  match assignLocals c.locals n v with
  | some ls => some ⟨ls, c.globals⟩
  | none =>
    if (c.globals.lookup n).isSome then some ⟨c.locals, (n, v) :: c.globals⟩
    else none

/-- Modelled from the spec: expression evaluation of the interpreter
(section 4.3), for the fragment of the language the claims need.  The
interpreter module itself is not among the visible sources.  Evaluation
returns the updated chain (assignments mutate it) and the value; an
undeclared identifier is a runtime error. -/
def evalExpr : Chain → Expr → Except String (Chain × Value)
  | c, Expr.lit v => Except.ok (c, v)
  | c, Expr.ident n =>
    match lookupChain c n with
    | some v => Except.ok (c, v)
    | none => Except.error ("Undefined variable " ++ n)
  | c, Expr.assign n e =>
    match evalExpr c e with
    | Except.ok (c1, v) =>
      match chainAssign c1 n v with
      | some c2 => Except.ok (c2, v)
      | none => Except.error ("Undefined variable " ++ n)
    | Except.error m => Except.error m

mutual

/-- Modelled from the spec: statement execution of the interpreter
(section 4.3).  A variable declaration binds in the current scope, a block
pushes one child scope and discards it on exit, an expression statement
yields its value (for the REPL echo of the last expression statement). -/
def execStmt : Chain → Stmt → Except String (Chain × Option Value)
  | c, Stmt.exprStmt e =>
    match evalExpr c e with
    | Except.ok (c1, v) => Except.ok (c1, some v)
    | Except.error m => Except.error m
  | c, Stmt.varDecl n init =>
    match init with
    | none => Except.ok (chainDefine c n Value.undef, none)
    | some e =>
      match evalExpr c e with
      | Except.ok (c1, v) => Except.ok (chainDefine c1 n v, none)
      | Except.error m => Except.error m
  | c, Stmt.block ss =>
    match execStmts ⟨[] :: c.locals, c.globals⟩ ss with
    | Except.ok (c1, _) => Except.ok (⟨c1.locals.drop 1, c1.globals⟩, none)
    | Except.error m => Except.error m

/-- Execute a statement sequence in order, keeping the value of the last
expression statement executed at this level. -/
def execStmts : Chain → List Stmt → Except String (Chain × Option Value)
  | c, [] => Except.ok (c, none)
  | c, s :: rest =>
    match execStmt c s with
    | Except.ok (c1, v) =>
      match execStmts c1 rest with
      | Except.ok (c2, v2) => Except.ok (c2, match v2 with | some w => some w | none => v)
      | Except.error m => Except.error m
    | Except.error m => Except.error m

end

/-- Persistent state of the single Interpreter instance: its global
environment, which lives as long as the session (spec section 3,
"Interpreter state"). -/
structure InterpState where
  globals : Scope
deriving DecidableEq

/-- Modelled from the spec: the interpreter entry point
`interpret(statements)` (section 4.3 and section 6).  Top-level statements
run with an empty local-scope stack over the instance's global
environment; on success the mutated global environment is kept in the
instance and the value of the last top-level expression statement (the
absence value when there is none) is returned; a runtime error is
surfaced as a thrown exception. -/
def specInterpret (st : InterpState) (prog : List Stmt) :
    InterpState × Except String Value :=
  match execStmts ⟨[], st.globals⟩ prog with
  | Except.ok (c, v) => (⟨c.globals⟩, Except.ok (match v with | some w => w | none => Value.undef))
  | Except.error m => (st, Except.error m)

/-- State of a `MiniJSEngine` instance (src/index.js lines 11-16): the
single Interpreter instance created by the constructor and the two error
flags. -/
structure EngineState where
  interp : InterpState
  hadError : Bool
  hadRuntimeError : Bool
deriving DecidableEq

/-- The engine right after the constructor ran (src/index.js lines 12-16):
both flags false, a fresh Interpreter with an empty global environment. -/
def initEngine : EngineState := ⟨⟨[]⟩, false, false⟩

/-- The three pipeline stages the driver calls (spec section 6).  Their
implementations are outside the visible sources, so the driver theorems
quantify over them.  `tokenize` and `parse` return their product together
with the lexical / syntax diagnostics they reported through the shared
error-reporting interface; an `Except.error` is an exception thrown past
the stage boundary.  `interpret` acts on the persistent interpreter
instance; a runtime error is its `Except.error` component, the instance
state is kept either way. -/
structure Stages where
  tokenize : String → Except String (List Token × List Diagnostic)
  parse : List Token → Except String (List Stmt × List Diagnostic)
  interpret : InterpState → List Stmt → InterpState × Except String Value

/-- Observable actions of one driver call: invoking a stage, console
output, prompting. -/
inductive Event where
  | tokenizeCall
  | parseCall
  | interpretCall
  | printResult (v : Value)
  | printErr (msg : String)
  | printOut (msg : String)
  | promptEv
deriving DecidableEq

/-- MiniJSEngine.report (src/index.js lines 96-99): print the diagnostic
and set `hadError`. -/
def report (st : EngineState) (d : Diagnostic) : EngineState × Event :=
  ({ st with hadError := true },
    Event.printErr
      ("[line " ++ toString d.line ++ "] Error " ++ d.whereCtx ++ ": " ++ d.message))

/-- Deliver a list of stage diagnostics through `report`, in order. -/
def reportAll (st : EngineState) (ds : List Diagnostic) : EngineState × List Event :=
  match ds with
  | [] => (st, [])
  | d :: rest =>
    let p := report st d
    let q := reportAll p.1 rest
    (q.1, p.2 :: q.2)

/-- MiniJSEngine.runtimeError (src/index.js lines 91-94): print the message
and set `hadRuntimeError`.  No code path of the visible driver invokes
it. -/
def runtimeError (st : EngineState) (msg : String) : EngineState × Event :=
  ({ st with hadRuntimeError := true }, Event.printErr ("Runtime Error: " ++ msg))

/-- MiniJSEngine.run (src/index.js lines 60-84).  Inside one try block the
driver tokenizes, parses, returns early when `hadError` is set, interprets,
and echoes a truthy result when no script-path argument is present
(`process.argv.length <= 2`, passed here as `argc`).  Any exception from a
stage is caught by the catch block, printed as `Error: ...`, and sets
`hadError`; `run` itself always returns normally.  Diagnostics reported by
the tokenizer and parser while they ran are delivered through the shared
`report` method. -/
def run (S : Stages) (st : EngineState) (source : String) (argc : Nat) :
    EngineState × List Event :=
  match S.tokenize source with
  | Except.error msg =>
    ({ st with hadError := true },
      [Event.tokenizeCall, Event.printErr ("Error: " ++ msg)])
  | Except.ok (tokens, lexDiags) =>
    let p1 := reportAll st lexDiags
    match S.parse tokens with
    | Except.error msg =>
      ({ p1.1 with hadError := true },
        Event.tokenizeCall :: p1.2 ++ [Event.parseCall, Event.printErr ("Error: " ++ msg)])
    | Except.ok (stmts, synDiags) =>
      let p2 := reportAll p1.1 synDiags
      let pre := Event.tokenizeCall :: p1.2 ++ Event.parseCall :: p2.2
      if p2.1.hadError then (p2.1, pre)
      else
        let q := S.interpret p2.1.interp stmts
        match q.2 with
        | Except.error msg =>
          ({ p2.1 with interp := q.1, hadError := true },
            pre ++ [Event.interpretCall, Event.printErr ("Error: " ++ msg)])
        | Except.ok v =>
          ({ p2.1 with interp := q.1 },
            pre ++ Event.interpretCall ::
              (if truthy v && decide (argc ≤ 2) then [Event.printResult v] else []))

/-- MiniJSEngine.runFile (src/index.js lines 19-31).  `contents` is the
result of reading the file (`Except.error` when reading threw).  The file
path counts as the third entry of `process.argv`, so `run` is called with
`argc = 3`.  Returns the final engine state, the exit code when the
process exited, and the event trace. -/
def runFile (S : Stages) (st : EngineState) (contents : Except String String) :
    EngineState × Option Nat × List Event :=
  match contents with
  | Except.error msg => (st, some 1, [Event.printErr ("Error reading file: " ++ msg)])
  | Except.ok source =>
    let p := run S st source 3
    if p.1.hadError then (p.1, some 65, p.2)
    else if p.1.hadRuntimeError then (p.1, some 70, p.2)
    else (p.1, none, p.2)

/-- Whitespace-trimming of a string, the behaviour of `line.trim()`
(src/index.js line 44), defined over the character list. -/
def strTrim (s : String) : String :=
  String.mk (((s.data.dropWhile Char.isWhitespace).reverse.dropWhile Char.isWhitespace).reverse)

/-- Whether a REPL line exits the loop (src/index.js line 44). -/
def isExitLine (l : String) : Bool := strTrim l == "exit" || strTrim l == "quit"

/-- One iteration of the REPL line handler for a non-exit line
(src/index.js lines 49-52): run the line (REPL mode, `argc = 2`), reset
both error flags, prompt again. -/
def promptStep (S : Stages) (st : EngineState) (line : String) :
    EngineState × List Event :=
  let p := run S st line 2
  ({ p.1 with hadError := false, hadRuntimeError := false }, p.2 ++ [Event.promptEv])

/-- MiniJSEngine.runPrompt (src/index.js lines 34-57) applied to a finite
list of input lines.  An exit/quit line closes the interface and the
process exits with code 0; otherwise each line goes through `promptStep`
and the loop continues; when the lines run out the REPL is still waiting
(no exit code). -/
def runPrompt (S : Stages) (st : EngineState) (lines : List String) :
    EngineState × Option Nat × List Event :=
  match lines with
  | [] => (st, none, [])
  | l :: rest =>
    if isExitLine l then (st, some 0, [Event.printOut "Goodbye!"])
    else
      let p := promptStep S st l
      let q := runPrompt S p.1 rest
      (q.1, q.2.1, p.2 ++ q.2.2)

theorem reportAll_interp (ds : List Diagnostic) : ∀ st : EngineState,
    (reportAll st ds).1.interp = st.interp := by
  induction ds with
  | nil => intro st; rfl
  | cons d rest ih => intro st; simpa [reportAll, report] using ih _

theorem reportAll_hadRuntimeError (ds : List Diagnostic) : ∀ st : EngineState,
    (reportAll st ds).1.hadRuntimeError = st.hadRuntimeError := by
  induction ds with
  | nil => intro st; rfl
  | cons d rest ih => intro st; simpa [reportAll, report] using ih _

theorem reportAll_hadError (ds : List Diagnostic) : ∀ st : EngineState,
    (reportAll st ds).1.hadError = (st.hadError || !ds.isEmpty) := by
  induction ds with
  | nil => intro st; simp [reportAll]
  | cons d rest ih =>
    intro st
    simp [reportAll, report, ih ({ st with hadError := true })]

theorem reportAll_events (ds : List Diagnostic) : ∀ st : EngineState,
    ∀ e ∈ (reportAll st ds).2, ∃ m, e = Event.printErr m := by
  induction ds with
  | nil => intro st e he; simp [reportAll] at he
  | cons d rest ih =>
    intro st e he
    simp only [reportAll, report, List.mem_cons] at he
    rcases he with h | h
    · exact ⟨_, h⟩
    · exact ih _ e h

theorem run_eq_tokError (S : Stages) (st : EngineState) (src : String) (argc : Nat)
    (m : String) (h : S.tokenize src = Except.error m) :
    run S st src argc =
      ({ st with hadError := true },
        [Event.tokenizeCall, Event.printErr ("Error: " ++ m)]) := by
  unfold run
  rw [h]

theorem run_eq_parseError (S : Stages) (st : EngineState) (src : String) (argc : Nat)
    (toks : List Token) (ds : List Diagnostic) (m : String)
    (h1 : S.tokenize src = Except.ok (toks, ds)) (h2 : S.parse toks = Except.error m) :
    run S st src argc =
      ({ (reportAll st ds).1 with hadError := true },
        Event.tokenizeCall :: (reportAll st ds).2 ++
          [Event.parseCall, Event.printErr ("Error: " ++ m)]) := by
  unfold run
  rw [h1]
  simp only [h2]

theorem run_eq_skip (S : Stages) (st : EngineState) (src : String) (argc : Nat)
    (toks : List Token) (ds : List Diagnostic) (stmts : List Stmt) (ds2 : List Diagnostic)
    (h1 : S.tokenize src = Except.ok (toks, ds)) (h2 : S.parse toks = Except.ok (stmts, ds2))
    (h3 : (reportAll (reportAll st ds).1 ds2).1.hadError = true) :
    run S st src argc =
      ((reportAll (reportAll st ds).1 ds2).1,
        Event.tokenizeCall :: (reportAll st ds).2 ++
          Event.parseCall :: (reportAll (reportAll st ds).1 ds2).2) := by
  unfold run
  rw [h1]
  simp only [h2, h3, if_true]

theorem run_eq_interpError (S : Stages) (st : EngineState) (src : String) (argc : Nat)
    (toks : List Token) (stmts : List Stmt) (i2 : InterpState) (m : String)
    (h1 : S.tokenize src = Except.ok (toks, [])) (h2 : S.parse toks = Except.ok (stmts, []))
    (h3 : st.hadError = false)
    (h4 : S.interpret st.interp stmts = (i2, Except.error m)) :
    run S st src argc =
      ({ st with interp := i2, hadError := true },
        [Event.tokenizeCall, Event.parseCall, Event.interpretCall,
          Event.printErr ("Error: " ++ m)]) := by
  unfold run
  rw [h1]
  simp only [h2, reportAll, h3, h4]
  rfl

theorem run_eq_interpOk (S : Stages) (st : EngineState) (src : String) (argc : Nat)
    (toks : List Token) (stmts : List Stmt) (i2 : InterpState) (v : Value)
    (h1 : S.tokenize src = Except.ok (toks, [])) (h2 : S.parse toks = Except.ok (stmts, []))
    (h3 : st.hadError = false)
    (h4 : S.interpret st.interp stmts = (i2, Except.ok v)) :
    run S st src argc =
      ({ st with interp := i2 },
        [Event.tokenizeCall, Event.parseCall, Event.interpretCall] ++
          (if truthy v && decide (argc ≤ 2) then [Event.printResult v] else [])) := by
  unfold run
  rw [h1]
  simp only [h2, reportAll, h3, h4]
  rfl

theorem lookup_isSome_cons (s : Scope) (k x : String) (v : Value)
    (h : (s.lookup x).isSome = true) : (((k, v) :: s).lookup x).isSome = true := by
  simp only [List.lookup]
  split
  · rfl
  · exact h

theorem assignLocals_length (n : String) (v : Value) :
    ∀ ls r, assignLocals ls n v = some r → r.length = ls.length := by
  intro ls
  induction ls with
  | nil => intro r h; simp [assignLocals] at h
  | cons s rest ih =>
    intro r h
    simp only [assignLocals] at h
    split at h
    · simp only [Option.some.injEq] at h
      subst h
      simp
    · cases hr : assignLocals rest n v with
      | none => simp [hr] at h
      | some r2 =>
        simp only [hr, Option.some.injEq] at h
        subst h
        simp [ih r2 hr]

theorem chainAssign_facts (c : Chain) (n : String) (v : Value) (c2 : Chain)
    (h : chainAssign c n v = some c2) :
    c2.locals.length = c.locals.length ∧
    ∀ x, (c.globals.lookup x).isSome = true → (c2.globals.lookup x).isSome = true := by
  unfold chainAssign at h
  cases hr : assignLocals c.locals n v with
  | some ls =>
    simp only [hr, Option.some.injEq] at h
    subst h
    exact ⟨assignLocals_length n v _ _ hr, fun x hx => hx⟩
  | none =>
    simp only [hr] at h
    split at h
    · simp only [Option.some.injEq] at h
      subst h
      exact ⟨rfl, fun x hx => lookup_isSome_cons _ _ _ _ hx⟩
    · cases h

theorem chainDefine_facts (c : Chain) (n : String) (v : Value) :
    (chainDefine c n v).locals.length = c.locals.length ∧
    ∀ x, (c.globals.lookup x).isSome = true →
      ((chainDefine c n v).globals.lookup x).isSome = true := by
  obtain ⟨ls, g⟩ := c
  cases ls with
  | nil => exact ⟨rfl, fun x hx => lookup_isSome_cons _ _ _ _ hx⟩
  | cons s rest => exact ⟨rfl, fun x hx => hx⟩

theorem evalExpr_facts (e : Expr) : ∀ c c1 v, evalExpr c e = Except.ok (c1, v) →
    c1.locals.length = c.locals.length ∧
    ∀ x, (c.globals.lookup x).isSome = true → (c1.globals.lookup x).isSome = true := by
  induction e with
  | lit w =>
    intro c c1 v h
    unfold evalExpr at h
    simp only [Except.ok.injEq, Prod.mk.injEq] at h
    obtain ⟨rfl, rfl⟩ := h
    exact ⟨rfl, fun x hx => hx⟩
  | ident n =>
    intro c c1 v h
    unfold evalExpr at h
    split at h
    · simp only [Except.ok.injEq, Prod.mk.injEq] at h
      obtain ⟨rfl, rfl⟩ := h
      exact ⟨rfl, fun x hx => hx⟩
    · cases h
  | assign n e ih =>
    intro c c1 v h
    unfold evalExpr at h
    cases he : evalExpr c e with
    | error m => simp [he] at h
    | ok p =>
      obtain ⟨cm, vm⟩ := p
      simp only [he] at h
      cases ha : chainAssign cm n vm with
      | none => simp [ha] at h
      | some cr =>
        simp only [ha, Except.ok.injEq, Prod.mk.injEq] at h
        obtain ⟨rfl, rfl⟩ := h
        obtain ⟨l1, m1⟩ := ih c cm vm he
        obtain ⟨l2, m2⟩ := chainAssign_facts cm n vm cr ha
        exact ⟨l2.trans l1, fun x hx => m2 x (m1 x hx)⟩

mutual

theorem execStmt_facts (c : Chain) (s : Stmt) (c1 : Chain) (v : Option Value)
    (h : execStmt c s = Except.ok (c1, v)) :
    c1.locals.length = c.locals.length ∧
    ∀ x, (c.globals.lookup x).isSome = true → (c1.globals.lookup x).isSome = true := by
  cases s with
  | exprStmt e =>
    unfold execStmt at h
    cases he : evalExpr c e with
    | error m => simp [he] at h
    | ok p =>
      obtain ⟨cm, vm⟩ := p
      simp only [he, Except.ok.injEq, Prod.mk.injEq] at h
      obtain ⟨rfl, rfl⟩ := h
      exact evalExpr_facts e c cm vm he
  | varDecl n init =>
    unfold execStmt at h
    cases init with
    | none =>
      simp only [Except.ok.injEq, Prod.mk.injEq] at h
      obtain ⟨rfl, rfl⟩ := h
      exact chainDefine_facts c n Value.undef
    | some e =>
      cases he : evalExpr c e with
      | error m => simp [he] at h
      | ok p =>
        obtain ⟨cm, vm⟩ := p
        simp only [he, Except.ok.injEq, Prod.mk.injEq] at h
        obtain ⟨rfl, rfl⟩ := h
        obtain ⟨l1, m1⟩ := evalExpr_facts e c cm vm he
        obtain ⟨l2, m2⟩ := chainDefine_facts cm n vm
        exact ⟨l2.trans l1, fun x hx => m2 x (m1 x hx)⟩
  | block ss =>
    unfold execStmt at h
    cases he : execStmts ⟨[] :: c.locals, c.globals⟩ ss with
    | error m => simp [he] at h
    | ok p =>
      obtain ⟨cm, vm⟩ := p
      simp only [he, Except.ok.injEq, Prod.mk.injEq] at h
      obtain ⟨rfl, rfl⟩ := h
      obtain ⟨l1, m1⟩ := execStmts_facts (⟨[] :: c.locals, c.globals⟩ : Chain) ss cm vm he
      refine ⟨?_, fun x hx => m1 x hx⟩
      simp only [List.length_cons] at l1
      simp [l1]

theorem execStmts_facts (c : Chain) (ss : List Stmt) (c1 : Chain) (v : Option Value)
    (h : execStmts c ss = Except.ok (c1, v)) :
    c1.locals.length = c.locals.length ∧
    ∀ x, (c.globals.lookup x).isSome = true → (c1.globals.lookup x).isSome = true := by
  cases ss with
  | nil =>
    unfold execStmts at h
    simp only [Except.ok.injEq, Prod.mk.injEq] at h
    obtain ⟨rfl, rfl⟩ := h
    exact ⟨rfl, fun x hx => hx⟩
  | cons s rest =>
    unfold execStmts at h
    cases h1 : execStmt c s with
    | error m => simp [h1] at h
    | ok p =>
      obtain ⟨cm, vm⟩ := p
      simp only [h1] at h
      cases h2 : execStmts cm rest with
      | error m => simp [h2] at h
      | ok q =>
        obtain ⟨cq, vq⟩ := q
        simp only [h2, Except.ok.injEq, Prod.mk.injEq] at h
        obtain ⟨rfl, rfl⟩ := h
        obtain ⟨l1, m1⟩ := execStmt_facts c s cm vm h1
        obtain ⟨l2, m2⟩ := execStmts_facts cm rest cq vq h2
        exact ⟨l2.trans l1, fun x hx => m2 x (m1 x hx)⟩

end

theorem execStmt_varDecl_defines (c : Chain) (x : String) (init : Option Expr)
    (cm : Chain) (vm : Option Value) (hl : c.locals = [])
    (h : execStmt c (Stmt.varDecl x init) = Except.ok (cm, vm)) :
    (cm.globals.lookup x).isSome = true := by
  obtain ⟨ls, g⟩ := c
  simp only at hl
  subst hl
  unfold execStmt at h
  cases init with
  | none =>
    simp only [Except.ok.injEq, Prod.mk.injEq] at h
    obtain ⟨rfl, rfl⟩ := h
    simp [chainDefine, List.lookup]
  | some e =>
    cases he : evalExpr ⟨[], g⟩ e with
    | error m => simp [he] at h
    | ok p =>
      obtain ⟨c2, v2⟩ := p
      simp only [he, Except.ok.injEq, Prod.mk.injEq] at h
      obtain ⟨rfl, rfl⟩ := h
      have hlen := (evalExpr_facts e _ c2 v2 he).1
      obtain ⟨ls2, g2⟩ := c2
      simp only at hlen
      have hnil : ls2 = [] := List.length_eq_zero.mp hlen
      subst hnil
      simp [chainDefine, List.lookup]

theorem execStmts_decl_defines (x : String) : ∀ (prog : List Stmt) (c c1 : Chain)
    (v : Option Value), c.locals = [] → execStmts c prog = Except.ok (c1, v) →
    (∃ init, Stmt.varDecl x init ∈ prog) → (c1.globals.lookup x).isSome = true := by
  intro prog
  induction prog with
  | nil =>
    intro c c1 v hl h hm
    rcases hm with ⟨i, hi⟩
    simp at hi
  | cons s rest ih =>
    intro c c1 v hl h hm
    unfold execStmts at h
    cases h1 : execStmt c s with
    | error m => simp [h1] at h
    | ok p =>
      obtain ⟨cm, vm⟩ := p
      simp only [h1] at h
      cases h2 : execStmts cm rest with
      | error m => simp [h2] at h
      | ok q =>
        obtain ⟨cq, vq⟩ := q
        simp only [h2, Except.ok.injEq, Prod.mk.injEq] at h
        obtain ⟨rfl, rfl⟩ := h
        rcases hm with ⟨init, hmem⟩
        rcases List.mem_cons.mp hmem with heq | hmem2
        · subst heq
          have hdef := execStmt_varDecl_defines c x init cm vm hl h1
          exact (execStmts_facts cm rest cq vq h2).2 x hdef
        · have hlen := (execStmt_facts c s cm vm h1).1
          have hcm : cm.locals = [] := by
            apply List.length_eq_zero.mp
            rw [hlen, hl]
            rfl
          exact ih cm cq vq hcm h2 ⟨init, hmem2⟩

theorem specInterpret_globals_mono (i : InterpState) (prog : List Stmt) (x : String)
    (h : (i.globals.lookup x).isSome = true) :
    ((specInterpret i prog).1.globals.lookup x).isSome = true := by
  unfold specInterpret
  cases he : execStmts ⟨[], i.globals⟩ prog with
  | error m => simpa using h
  | ok p =>
    obtain ⟨cm, vm⟩ := p
    simp only []
    exact (execStmts_facts _ prog cm vm he).2 x h

theorem specInterpret_decl_defines (i : InterpState) (prog : List Stmt) (x : String)
    (init : Option Expr) (i2 : InterpState) (v : Value)
    (hmem : Stmt.varDecl x init ∈ prog)
    (h : specInterpret i prog = (i2, Except.ok v)) :
    (i2.globals.lookup x).isSome = true := by
  unfold specInterpret at h
  cases he : execStmts ⟨[], i.globals⟩ prog with
  | error m => simp [he] at h
  | ok p =>
    obtain ⟨cm, vm⟩ := p
    simp only [he, Prod.mk.injEq] at h
    obtain ⟨rfl, hv⟩ := h
    exact execStmts_decl_defines x prog ⟨[], i.globals⟩ cm vm rfl he ⟨init, hmem⟩

theorem run_state_shape (S : Stages) (st : EngineState) (src : String) (argc : Nat) :
    (run S st src argc).1.hadRuntimeError = st.hadRuntimeError ∧
    ((run S st src argc).1.interp = st.interp ∨
      ∃ stmts, (run S st src argc).1.interp = (S.interpret st.interp stmts).1) := by
  unfold run
  cases ht : S.tokenize src with
  | error m => exact ⟨rfl, Or.inl rfl⟩
  | ok p =>
    obtain ⟨toks, ds⟩ := p
    dsimp only
    cases hp : S.parse toks with
    | error m =>
      exact ⟨reportAll_hadRuntimeError ds st, Or.inl (reportAll_interp ds st)⟩
    | ok q =>
      obtain ⟨stmts, ds2⟩ := q
      dsimp only
      split
      · refine ⟨?_, Or.inl ?_⟩
        · rw [reportAll_hadRuntimeError, reportAll_hadRuntimeError]
        · rw [reportAll_interp, reportAll_interp]
      · cases hq : (S.interpret (reportAll (reportAll st ds).1 ds2).1.interp stmts).2 with
        | error m =>
          refine ⟨?_, Or.inr ⟨stmts, ?_⟩⟩
          · dsimp only
            rw [reportAll_hadRuntimeError, reportAll_hadRuntimeError]
          · dsimp only
            rw [reportAll_interp, reportAll_interp]
        | ok v =>
          refine ⟨?_, Or.inr ⟨stmts, ?_⟩⟩
          · dsimp only
            rw [reportAll_hadRuntimeError, reportAll_hadRuntimeError]
          · dsimp only
            rw [reportAll_interp, reportAll_interp]

/-- The pipeline with the spec-modelled interpreter instance plugged in;
the tokenizer and parser implementations stay arbitrary. -/
def specStages (tok : String → Except String (List Token × List Diagnostic))
    (par : List Token → Except String (List Stmt × List Diagnostic)) : Stages :=
  ⟨tok, par, specInterpret⟩

theorem run_specStages_globals_mono (tok : String → Except String (List Token × List Diagnostic))
    (par : List Token → Except String (List Stmt × List Diagnostic))
    (st : EngineState) (src : String) (argc : Nat) (x : String)
    (h : (st.interp.globals.lookup x).isSome = true) :
    ((run (specStages tok par) st src argc).1.interp.globals.lookup x).isSome = true := by
  rcases (run_state_shape (specStages tok par) st src argc).2 with heq | ⟨stmts, heq⟩
  · rw [heq]; exact h
  · rw [heq]
    exact specInterpret_globals_mono st.interp stmts x h

theorem promptStep_specStages_globals_mono
    (tok : String → Except String (List Token × List Diagnostic))
    (par : List Token → Except String (List Stmt × List Diagnostic))
    (st : EngineState) (l : String) (x : String)
    (h : (st.interp.globals.lookup x).isSome = true) :
    ((promptStep (specStages tok par) st l).1.interp.globals.lookup x).isSome = true := by
  unfold promptStep
  exact run_specStages_globals_mono tok par st l 2 x h

theorem runPrompt_specStages_globals_mono
    (tok : String → Except String (List Token × List Diagnostic))
    (par : List Token → Except String (List Stmt × List Diagnostic)) :
    ∀ (lines : List String) (st : EngineState) (x : String),
    (st.interp.globals.lookup x).isSome = true →
    ((runPrompt (specStages tok par) st lines).1.interp.globals.lookup x).isSome = true := by
  intro lines
  induction lines with
  | nil => intro st x h; exact h
  | cons l rest ih =>
    intro st x h
    unfold runPrompt
    split
    · exact h
    · dsimp only
      exact ih _ x (promptStep_specStages_globals_mono tok par st l x h)

theorem run_interpretCall_iff (S : Stages) (st : EngineState) (src : String) (argc : Nat) :
    Event.interpretCall ∈ (run S st src argc).2 ↔
    ∃ toks stmts, S.tokenize src = Except.ok (toks, []) ∧
      S.parse toks = Except.ok (stmts, []) ∧ st.hadError = false := by
  constructor
  · intro hmem
    cases ht : S.tokenize src with
    | error m =>
      rw [run_eq_tokError S st src argc m ht] at hmem
      simp at hmem
    | ok p =>
      obtain ⟨toks, ds⟩ := p
      cases hp : S.parse toks with
      | error m =>
        rw [run_eq_parseError S st src argc toks ds m ht hp] at hmem
        rcases List.mem_cons.mp hmem with h | h
        · exact absurd h (by simp)
        rcases List.mem_append.mp h with h2 | h2
        · obtain ⟨mm, hmm⟩ := reportAll_events ds st _ h2
          exact absurd hmm (by simp)
        · simp at h2
      | ok q =>
        obtain ⟨stmts, ds2⟩ := q
        by_cases hcond : (reportAll (reportAll st ds).1 ds2).1.hadError = true
        · rw [run_eq_skip S st src argc toks ds stmts ds2 ht hp hcond] at hmem
          rcases List.mem_cons.mp hmem with h | h
          · exact absurd h (by simp)
          rcases List.mem_append.mp h with h2 | h2
          · obtain ⟨mm, hmm⟩ := reportAll_events ds st _ h2
            exact absurd hmm (by simp)
          rcases List.mem_cons.mp h2 with h3 | h3
          · exact absurd h3 (by simp)
          · obtain ⟨mm, hmm⟩ := reportAll_events ds2 (reportAll st ds).1 _ h3
            exact absurd hmm (by simp)
        · rw [reportAll_hadError, reportAll_hadError] at hcond
          simp only [Bool.or_eq_true, not_or, Bool.not_eq_true] at hcond
          obtain ⟨⟨hst, hds⟩, hds2⟩ := hcond
          have hds' : ds = [] := by
            cases ds with
            | nil => rfl
            | cons a t => simp [List.isEmpty] at hds
          have hds2' : ds2 = [] := by
            cases ds2 with
            | nil => rfl
            | cons a t => simp [List.isEmpty] at hds2
          subst hds'
          subst hds2'
          exact ⟨toks, stmts, rfl, hp, hst⟩
  · rintro ⟨toks, stmts, ht, hp, hst⟩
    rcases hq : S.interpret st.interp stmts with ⟨i2, r⟩
    cases r with
    | error m =>
      rw [run_eq_interpError S st src argc toks stmts i2 m ht hp hst hq]
      simp
    | ok v =>
      rw [run_eq_interpOk S st src argc toks stmts i2 v ht hp hst hq]
      simp

theorem run_parseCall_of_tokenize_ok (S : Stages) (st : EngineState) (src : String)
    (argc : Nat) (toks : List Token) (ds : List Diagnostic)
    (htok : S.tokenize src = Except.ok (toks, ds)) :
    Event.parseCall ∈ (run S st src argc).2 := by
  cases hp : S.parse toks with
  | error m =>
    rw [run_eq_parseError S st src argc toks ds m htok hp]
    simp
  | ok q =>
    obtain ⟨stmts, ds2⟩ := q
    by_cases hcond : (reportAll (reportAll st ds).1 ds2).1.hadError = true
    · rw [run_eq_skip S st src argc toks ds stmts ds2 htok hp hcond]
      simp
    · rw [reportAll_hadError, reportAll_hadError] at hcond
      simp only [Bool.or_eq_true, not_or, Bool.not_eq_true] at hcond
      obtain ⟨⟨hst, hds⟩, hds2⟩ := hcond
      have hds' : ds = [] := by
        cases ds with
        | nil => rfl
        | cons a t => simp [List.isEmpty] at hds
      have hds2' : ds2 = [] := by
        cases ds2 with
        | nil => rfl
        | cons a t => simp [List.isEmpty] at hds2
      subst hds'
      subst hds2'
      rcases hq : S.interpret st.interp stmts with ⟨i2, r⟩
      cases r with
      | error m =>
        rw [run_eq_interpError S st src argc toks stmts i2 m htok hp hst hq]
        simp
      | ok v =>
        rw [run_eq_interpOk S st src argc toks stmts i2 v htok hp hst hq]
        simp

theorem run_printResult_mem (S : Stages) (st : EngineState) (src : String) (argc : Nat)
    (w : Value) (h : Event.printResult w ∈ (run S st src argc).2) :
    (truthy w && decide (argc ≤ 2)) = true ∧
    ∃ toks stmts i2, S.tokenize src = Except.ok (toks, []) ∧
      S.parse toks = Except.ok (stmts, []) ∧ st.hadError = false ∧
      S.interpret st.interp stmts = (i2, Except.ok w) := by
  cases ht : S.tokenize src with
  | error m =>
    rw [run_eq_tokError S st src argc m ht] at h
    simp at h
  | ok p =>
    obtain ⟨toks, ds⟩ := p
    cases hp : S.parse toks with
    | error m =>
      rw [run_eq_parseError S st src argc toks ds m ht hp] at h
      rcases List.mem_cons.mp h with h1 | h1
      · exact absurd h1 (by simp)
      rcases List.mem_append.mp h1 with h2 | h2
      · obtain ⟨mm, hmm⟩ := reportAll_events ds st _ h2
        exact absurd hmm (by simp)
      · simp at h2
    | ok q =>
      obtain ⟨stmts, ds2⟩ := q
      by_cases hcond : (reportAll (reportAll st ds).1 ds2).1.hadError = true
      · rw [run_eq_skip S st src argc toks ds stmts ds2 ht hp hcond] at h
        rcases List.mem_cons.mp h with h1 | h1
        · exact absurd h1 (by simp)
        rcases List.mem_append.mp h1 with h2 | h2
        · obtain ⟨mm, hmm⟩ := reportAll_events ds st _ h2
          exact absurd hmm (by simp)
        rcases List.mem_cons.mp h2 with h3 | h3
        · exact absurd h3 (by simp)
        · obtain ⟨mm, hmm⟩ := reportAll_events ds2 (reportAll st ds).1 _ h3
          exact absurd hmm (by simp)
      · rw [reportAll_hadError, reportAll_hadError] at hcond
        simp only [Bool.or_eq_true, not_or, Bool.not_eq_true] at hcond
        obtain ⟨⟨hst, hds⟩, hds2⟩ := hcond
        have hds' : ds = [] := by
          cases ds with
          | nil => rfl
          | cons a t => simp [List.isEmpty] at hds
        have hds2' : ds2 = [] := by
          cases ds2 with
          | nil => rfl
          | cons a t => simp [List.isEmpty] at hds2
        subst hds'
        subst hds2'
        rcases hq : S.interpret st.interp stmts with ⟨i2, r⟩
        cases r with
        | error m =>
          rw [run_eq_interpError S st src argc toks stmts i2 m ht hp hst hq] at h
          simp at h
        | ok v =>
          rw [run_eq_interpOk S st src argc toks stmts i2 v ht hp hst hq] at h
          rcases List.mem_append.mp h with h1 | h1
          · simp at h1
          · split at h1
            · simp only [List.mem_singleton, Event.printResult.injEq] at h1
              subst h1
              refine ⟨by assumption, toks, stmts, i2, rfl, hp, hst, hq⟩
            · simp at h1

theorem runPrompt_cons_of_ne (S : Stages) (st : EngineState) (l : String)
    (rest : List String) (hne : isExitLine l = false) :
    runPrompt S st (l :: rest) =
      ((runPrompt S (promptStep S st l).1 rest).1,
        (runPrompt S (promptStep S st l).1 rest).2.1,
        (promptStep S st l).2 ++ (runPrompt S (promptStep S st l).1 rest).2.2) := by
  conv_lhs => unfold runPrompt
  simp [hne]

theorem runPrompt_hadRuntimeError_false (S : Stages) :
    ∀ (lines : List String) (st : EngineState), st.hadRuntimeError = false →
    (runPrompt S st lines).1.hadRuntimeError = false := by
  intro lines
  induction lines with
  | nil => intro st h; exact h
  | cons l rest ih =>
    intro st h
    unfold runPrompt
    split
    · exact h
    · dsimp only
      exact ih _ rfl

/-- A pipeline whose tokenizer throws an exception on every input. -/
def throwingTokenizer : Stages :=
  ⟨fun _ => Except.error "Unexpected character.",
   fun _ => Except.ok ([], []),
   specInterpret⟩

/-- A pipeline whose tokenizer reports one lexical diagnostic and returns a
token sequence; parsing and interpretation succeed. -/
def lexDiagStages : Stages :=
  ⟨fun _ => Except.ok ([⟨TokenKind.eof, "", none, 1⟩], [⟨1, "", "Unexpected character."⟩]),
   fun _ => Except.ok ([], []),
   specInterpret⟩

/-- A pipeline whose parser throws an exception on every token sequence. -/
def throwingParser : Stages :=
  ⟨fun _ => Except.ok ([⟨TokenKind.eof, "", none, 1⟩], []),
   fun _ => Except.error "Expect expression.",
   specInterpret⟩

/-- A pipeline that tokenizes and parses cleanly into one truthy literal
expression statement and interprets with the spec-modelled interpreter. -/
def cleanStages : Stages :=
  ⟨fun _ => Except.ok ([⟨TokenKind.eof, "", none, 1⟩], []),
   fun _ => Except.ok ([Stmt.exprStmt (Expr.lit (Value.num 1))], []),
   specInterpret⟩

/-- A pipeline whose interpreter throws a runtime error on every program. -/
def rtErrStages : Stages :=
  ⟨fun _ => Except.ok ([], []),
   fun _ => Except.ok ([], []),
   fun i _ => (i, Except.error "Undefined variable y")⟩

/-- A pipeline whose interpreter returns the falsy value 0. -/
def zeroStages : Stages :=
  ⟨fun _ => Except.ok ([], []),
   fun _ => Except.ok ([], []),
   fun i _ => (i, Except.ok (Value.num 0))⟩

/-- C1: if a lexical or syntax error was reported while tokenizing or
parsing a source string -- a stage threw an exception, a stage reported a
diagnostic, or the hadError flag was already set -- then run returns
without calling interpret, so the statements of that program are never
evaluated (src/index.js lines 60-84, in particular the early return on
line 71 and the catch block). -/
theorem run_error_prevents_interpret (S : Stages) (st : EngineState) (src : String)
    (argc : Nat)
    (h : st.hadError = true ∨ (∃ m, S.tokenize src = Except.error m) ∨
      ∃ toks ds, S.tokenize src = Except.ok (toks, ds) ∧
        (ds ≠ [] ∨ (∃ m, S.parse toks = Except.error m) ∨
          ∃ stmts ds2, S.parse toks = Except.ok (stmts, ds2) ∧ ds2 ≠ [])) :
    Event.interpretCall ∉ (run S st src argc).2 := by
  intro hmem
  rw [run_interpretCall_iff] at hmem
  obtain ⟨toks, stmts, ht, hp, hst⟩ := hmem
  rcases h with hh | ⟨m, hm⟩ | ⟨toks2, ds, htok, hrest⟩
  · rw [hst] at hh
    cases hh
  · rw [hm] at ht
    cases ht
  · rw [htok] at ht
    simp only [Except.ok.injEq, Prod.mk.injEq] at ht
    obtain ⟨rfl, rfl⟩ := ht
    rcases hrest with hds | ⟨m, hm⟩ | ⟨stmts2, ds2, hp2, hds2⟩
    · exact hds rfl
    · rw [hm] at hp
      cases hp
    · rw [hp2] at hp
      simp only [Except.ok.injEq, Prod.mk.injEq] at hp
      obtain ⟨rfl, rfl⟩ := hp
      exact hds2 rfl

/-- C1 witness: a tokenizer exception on a concrete input leaves the
interpret stage uncalled. -/
theorem run_error_prevents_interpret_witness :
    Event.interpretCall ∉ (run throwingTokenizer initEngine "@" 3).2 :=
  run_error_prevents_interpret throwingTokenizer initEngine "@" 3
    (Or.inr (Or.inl ⟨"Unexpected character.", rfl⟩))

/-- C2 counterexample: on a concrete unit for which the tokenizer reports
a lexical diagnostic (without throwing), the driver still invokes the
parser on that unit's token sequence: run has no hadError check between
the tokenize and parse calls (src/index.js lines 62-68). -/
theorem tokenizer_error_prevents_parsing_cex :
    (∃ toks ds, lexDiagStages.tokenize "@" = Except.ok (toks, ds) ∧ ds ≠ []) ∧
    Event.parseCall ∈ (run lexDiagStages initEngine "@" 3).2 := by
  constructor
  · exact ⟨[⟨TokenKind.eof, "", none, 1⟩], [⟨1, "", "Unexpected character."⟩], rfl, by simp⟩
  · exact run_parseCall_of_tokenize_ok lexDiagStages initEngine "@" 3
      [⟨TokenKind.eof, "", none, 1⟩] [⟨1, "", "Unexpected character."⟩] rfl

/-- C2 (amended): a lexical error the tokenizer reports through the shared
error interface does not prevent the parser from running on that unit's
token sequence; like a parser error, it prevents interpretation of the
unit (the hadError check sits only between parse and interpret).  Only a
tokenizer exception, which the catch block intercepts, skips the parse
call. -/
theorem reported_lex_error_skips_interpret_not_parse (S : Stages) (st : EngineState)
    (src : String) (argc : Nat) (toks : List Token) (ds : List Diagnostic)
    (htok : S.tokenize src = Except.ok (toks, ds)) (hds : ds ≠ []) :
    Event.parseCall ∈ (run S st src argc).2 ∧
    Event.interpretCall ∉ (run S st src argc).2 := by
  refine ⟨run_parseCall_of_tokenize_ok S st src argc toks ds htok, ?_⟩
  intro hmem
  rw [run_interpretCall_iff] at hmem
  obtain ⟨toks2, stmts, ht, hp, hst⟩ := hmem
  rw [htok] at ht
  simp only [Except.ok.injEq, Prod.mk.injEq] at ht
  exact hds ht.2

/-- C2 amended-claim witness at a concrete reported lexical error. -/
theorem reported_lex_error_skips_interpret_not_parse_witness :
    Event.parseCall ∈ (run lexDiagStages initEngine "%" 2).2 ∧
    Event.interpretCall ∉ (run lexDiagStages initEngine "%" 2).2 :=
  reported_lex_error_skips_interpret_not_parse lexDiagStages initEngine "%" 2
    [⟨TokenKind.eof, "", none, 1⟩] [⟨1, "", "Unexpected character."⟩] rfl (by simp)

/-- C3: after runFile runs a script, the two error flags map to the two
distinct exit codes: a run that set hadError exits the process with code
65, and a run that left hadError unset but has hadRuntimeError set exits
with code 70 (src/index.js lines 24-26). -/
theorem runFile_exit_codes (S : Stages) (st : EngineState) (src : String) :
    ((run S st src 3).1.hadError = true →
      (runFile S st (Except.ok src)).2.1 = some 65) ∧
    ((run S st src 3).1.hadError = false → (run S st src 3).1.hadRuntimeError = true →
      (runFile S st (Except.ok src)).2.1 = some 70) := by
  constructor
  · intro h
    unfold runFile
    simp [h]
  · intro h1 h2
    unfold runFile
    simp [h1, h2]

/-- C3 witness: a concrete erroring run exits 65; a concrete clean run of
an engine whose hadRuntimeError flag is set exits 70. -/
theorem runFile_exit_codes_witness :
    (runFile throwingTokenizer initEngine (Except.ok "@")).2.1 = some 65 ∧
    (runFile cleanStages ⟨⟨[]⟩, false, true⟩ (Except.ok "1")).2.1 = some 70 :=
  ⟨(runFile_exit_codes throwingTokenizer initEngine "@").1 (by decide),
   (runFile_exit_codes cleanStages ⟨⟨[]⟩, false, true⟩ "1").2 (by decide) (by decide)⟩

/-- C4: the driver owns a single Interpreter instance, created once in the
constructor, and feeds every successive REPL line to that same instance
through run, so the global environment persists across lines: a name
defined in the instance's global environment is still defined after any
further lines are processed (first conjunct, for every tokenizer and
parser behaviour over the spec-modelled interpreter), and a top-level
variable declaration that interpret executes successfully leaves the
declared name defined in the instance's global environment (second
conjunct); together, a variable declared in one line remains visible to
every later line of the session (src/index.js lines 12-16, 43-52, 74). -/
theorem repl_session_persistence
    (tok : String → Except String (List Token × List Diagnostic))
    (par : List Token → Except String (List Stmt × List Diagnostic))
    (st : EngineState) (lines : List String) (x : String) :
    ((st.interp.globals.lookup x).isSome = true →
      ((runPrompt (specStages tok par) st lines).1.interp.globals.lookup x).isSome = true) ∧
    (∀ (i i2 : InterpState) (prog : List Stmt) (init : Option Expr) (v : Value),
      Stmt.varDecl x init ∈ prog → specInterpret i prog = (i2, Except.ok v) →
      (i2.globals.lookup x).isSome = true) :=
  ⟨fun h => runPrompt_specStages_globals_mono tok par lines st x h,
   fun i i2 prog init v hmem h => specInterpret_decl_defines i prog x init i2 v hmem h⟩

/-- C4 witness: a concrete two-line session preserves a binding of the
global environment, and a concrete successful top-level declaration
defines its name. -/
theorem repl_session_persistence_witness :
    ((runPrompt (specStages (fun _ => Except.ok ([], []))
          (fun _ => Except.ok ([Stmt.varDecl "x" none], [])))
        ⟨⟨[("y", Value.num 1)]⟩, false, false⟩
        ["var x;", "var x;"]).1.interp.globals.lookup "y").isSome = true ∧
    ((⟨[("x", Value.undef)]⟩ : InterpState).globals.lookup "x").isSome = true :=
  ⟨(repl_session_persistence (fun _ => Except.ok ([], []))
      (fun _ => Except.ok ([Stmt.varDecl "x" none], []))
      ⟨⟨[("y", Value.num 1)]⟩, false, false⟩ ["var x;", "var x;"] "y").1 (by decide),
   (repl_session_persistence (fun _ => Except.ok ([], []))
      (fun _ => Except.ok ([Stmt.varDecl "x" none], []))
      ⟨⟨[]⟩, false, false⟩ [] "x").2 ⟨[]⟩ ⟨[("x", Value.undef)]⟩
      [Stmt.varDecl "x" none] none Value.undef (by simp) rfl⟩

/-- C5: a runtime error thrown by the interpreter aborts only the current
program, never the process: in the REPL the error is reported, both flags
are reset, and the loop continues with the remaining lines and an
unchanged exit status; in file-run mode the process terminates with an
exit code only after the error has been reported (src/index.js lines
19-31, 43-56, 60-84). -/
theorem runtime_error_aborts_program_not_process
    (S : Stages) (st : EngineState) (l : String) (rest : List String)
    (toks : List Token) (stmts : List Stmt) (i2 : InterpState) (m : String)
    (hne : isExitLine l = false)
    (htok : S.tokenize l = Except.ok (toks, []))
    (hpar : S.parse toks = Except.ok (stmts, []))
    (hfl : st.hadError = false)
    (hint : S.interpret st.interp stmts = (i2, Except.error m)) :
    (Event.printErr ("Error: " ++ m) ∈ (promptStep S st l).2 ∧
      (promptStep S st l).1.hadError = false ∧
      (promptStep S st l).1.hadRuntimeError = false ∧
      (runPrompt S st (l :: rest)).2.1 = (runPrompt S (promptStep S st l).1 rest).2.1 ∧
      (runPrompt S st (l :: rest)).2.2 =
        (promptStep S st l).2 ++ (runPrompt S (promptStep S st l).1 rest).2.2) ∧
    ((runFile S st (Except.ok l)).2.1 = some 65 ∧
      Event.printErr ("Error: " ++ m) ∈ (runFile S st (Except.ok l)).2.2) := by
  have h2 := run_eq_interpError S st l 2 toks stmts i2 m htok hpar hfl hint
  have h3 := run_eq_interpError S st l 3 toks stmts i2 m htok hpar hfl hint
  refine ⟨⟨?_, rfl, rfl, ?_, ?_⟩, ?_, ?_⟩
  · unfold promptStep
    rw [h2]
    simp
  · rw [runPrompt_cons_of_ne S st l rest hne]
  · rw [runPrompt_cons_of_ne S st l rest hne]
  · unfold runFile
    simp [h3]
  · unfold runFile
    simp [h3]

/-- C5 witness at a concrete runtime error: the REPL step reports it and
the file run exits after reporting. -/
theorem runtime_error_aborts_program_not_process_witness :
    Event.printErr ("Error: " ++ "Undefined variable y")
        ∈ (promptStep rtErrStages initEngine "y").2 ∧
    (runFile rtErrStages initEngine (Except.ok "y")).2.1 = some 65 :=
  ⟨(runtime_error_aborts_program_not_process rtErrStages initEngine "y" []
      [] [] ⟨[]⟩ "Undefined variable y" (by decide) rfl rfl rfl rfl).1.1,
   (runtime_error_aborts_program_not_process rtErrStages initEngine "y" []
      [] [] ⟨[]⟩ "Undefined variable y" (by decide) rfl rfl rfl rfl).2.1⟩

/-- C6: every exception a stage throws during run is caught inside run's
catch block and surfaced as a printed diagnostic that also sets hadError;
run itself is a total function of its inputs and never propagates an
exception to its caller (src/index.js lines 60-84). -/
theorem run_surfaces_exceptions (S : Stages) (st : EngineState) (src : String)
    (argc : Nat) :
    (∀ m, S.tokenize src = Except.error m →
      Event.printErr ("Error: " ++ m) ∈ (run S st src argc).2 ∧
        (run S st src argc).1.hadError = true) ∧
    (∀ toks ds m, S.tokenize src = Except.ok (toks, ds) →
      S.parse toks = Except.error m →
      Event.printErr ("Error: " ++ m) ∈ (run S st src argc).2 ∧
        (run S st src argc).1.hadError = true) ∧
    (∀ toks stmts i2 m, S.tokenize src = Except.ok (toks, []) →
      S.parse toks = Except.ok (stmts, []) → st.hadError = false →
      S.interpret st.interp stmts = (i2, Except.error m) →
      Event.printErr ("Error: " ++ m) ∈ (run S st src argc).2 ∧
        (run S st src argc).1.hadError = true) := by
  refine ⟨?_, ?_, ?_⟩
  · intro m hm
    rw [run_eq_tokError S st src argc m hm]
    simp
  · intro toks ds m h1 h2
    rw [run_eq_parseError S st src argc toks ds m h1 h2]
    simp
  · intro toks stmts i2 m h1 h2 h3 h4
    rw [run_eq_interpError S st src argc toks stmts i2 m h1 h2 h3 h4]
    simp

/-- C6 witness: concrete thrown exceptions of each stage are reported and
set hadError. -/
theorem run_surfaces_exceptions_witness :
    (Event.printErr ("Error: " ++ "Unexpected character.")
        ∈ (run throwingTokenizer initEngine "@" 3).2 ∧
      (run throwingTokenizer initEngine "@" 3).1.hadError = true) ∧
    (Event.printErr ("Error: " ++ "Expect expression.")
        ∈ (run throwingParser initEngine ";" 3).2 ∧
      (run throwingParser initEngine ";" 3).1.hadError = true) ∧
    (Event.printErr ("Error: " ++ "Undefined variable y")
        ∈ (run rtErrStages initEngine "y" 3).2 ∧
      (run rtErrStages initEngine "y" 3).1.hadError = true) :=
  ⟨(run_surfaces_exceptions throwingTokenizer initEngine "@" 3).1
      "Unexpected character." rfl,
   (run_surfaces_exceptions throwingParser initEngine ";" 3).2.1
      [⟨TokenKind.eof, "", none, 1⟩] [] "Expect expression." rfl rfl,
   (run_surfaces_exceptions rtErrStages initEngine "y" 3).2.2
      [] [] ⟨[]⟩ "Undefined variable y" rfl rfl rfl rfl⟩

/-- A pipeline whose tokenizer throws only on the input string at-sign and
otherwise succeeds cleanly. -/
def mixedStages : Stages :=
  ⟨fun s => if s = "@" then Except.error "Unexpected character." else Except.ok ([], []),
   fun _ => Except.ok ([], []),
   specInterpret⟩

/-- C7: the value interpret returns is used only for the REPL echo: run
prints a result only when no script-path argument is present (the
process.argv length guard on line 77), and when a script file is being
run through runFile the driver never prints the result value
(src/index.js lines 73-79). -/
theorem result_echo_only_repl (S : Stages) (st : EngineState) (src : String)
    (argc : Nat) (v : Value) :
    (Event.printResult v ∈ (run S st src argc).2 → argc ≤ 2) ∧
    (∀ w, Event.printResult w ∉ (runFile S st (Except.ok src)).2.2) := by
  constructor
  · intro h
    have hg := (run_printResult_mem S st src argc v h).1
    simp only [Bool.and_eq_true, decide_eq_true_eq] at hg
    exact hg.2
  · intro w hmem
    have hmem2 : Event.printResult w ∈ (run S st src 3).2 := by
      unfold runFile at hmem
      dsimp only at hmem
      split at hmem
      · exact hmem
      · split at hmem
        · exact hmem
        · exact hmem
    have hg := (run_printResult_mem S st src 3 w hmem2).1
    simp at hg

/-- C7 witness: a concrete REPL echo forces the REPL-mode argument count,
and a concrete file run prints no result. -/
theorem result_echo_only_repl_witness :
    2 ≤ 2 ∧
    Event.printResult (Value.num 0) ∉ (runFile cleanStages initEngine (Except.ok "1")).2.2 :=
  ⟨(result_echo_only_repl cleanStages initEngine "1" 2 (Value.num 1)).1 (by decide),
   (result_echo_only_repl cleanStages initEngine "1" 3 (Value.num 1)).2 (Value.num 0)⟩

/-- C8: every exception caught by run's catch block sets hadError, and no
driver code path invokes runtimeError or assigns hadRuntimeError: run
leaves hadRuntimeError exactly as it was, and runPrompt only ever resets
it to false, so hadRuntimeError is still false after every completed run
of a session that started with it false (src/index.js lines 80-83,
91-94). -/
theorem run_never_sets_hadRuntimeError (S : Stages) (st : EngineState) (src : String)
    (argc : Nat) (lines : List String) :
    (run S st src argc).1.hadRuntimeError = st.hadRuntimeError ∧
    (st.hadRuntimeError = false → (runPrompt S st lines).1.hadRuntimeError = false) ∧
    (∀ m, S.tokenize src = Except.error m → (run S st src argc).1.hadError = true) ∧
    (∀ toks ds m, S.tokenize src = Except.ok (toks, ds) →
      S.parse toks = Except.error m → (run S st src argc).1.hadError = true) ∧
    (∀ toks stmts i2 m, S.tokenize src = Except.ok (toks, []) →
      S.parse toks = Except.ok (stmts, []) → st.hadError = false →
      S.interpret st.interp stmts = (i2, Except.error m) →
      (run S st src argc).1.hadError = true) := by
  refine ⟨(run_state_shape S st src argc).1,
    fun h => runPrompt_hadRuntimeError_false S lines st h, ?_, ?_, ?_⟩
  · intro m hm
    rw [run_eq_tokError S st src argc m hm]
  · intro toks ds m h1 h2
    rw [run_eq_parseError S st src argc toks ds m h1 h2]
  · intro toks stmts i2 m h1 h2 h3 h4
    rw [run_eq_interpError S st src argc toks stmts i2 m h1 h2 h3 h4]

/-- C8 witness: a concrete runtime-erroring run leaves hadRuntimeError
untouched, a concrete session ends with it false, and a concrete caught
exception set hadError. -/
theorem run_never_sets_hadRuntimeError_witness :
    (run rtErrStages initEngine "y" 2).1.hadRuntimeError = initEngine.hadRuntimeError ∧
    (runPrompt rtErrStages initEngine ["y"]).1.hadRuntimeError = false ∧
    (run throwingTokenizer initEngine "@" 2).1.hadError = true :=
  ⟨(run_never_sets_hadRuntimeError rtErrStages initEngine "y" 2 ["y"]).1,
   (run_never_sets_hadRuntimeError rtErrStages initEngine "y" 2 ["y"]).2.1 rfl,
   (run_never_sets_hadRuntimeError throwingTokenizer initEngine "@" 2 []).2.2.1
      "Unexpected character." rfl⟩

/-- C9: in REPL mode run echoes the interpret result only when it is
truthy: under the JavaScript truthiness of the guard on line 77, a falsy
result (0, false, the empty string, null or undefined) prints nothing for
that line (src/index.js lines 76-79). -/
theorem repl_echo_truthiness (S : Stages) (st : EngineState) (src : String)
    (toks : List Token) (stmts : List Stmt) (i2 : InterpState) (v : Value)
    (htok : S.tokenize src = Except.ok (toks, []))
    (hpar : S.parse toks = Except.ok (stmts, []))
    (hfl : st.hadError = false)
    (hint : S.interpret st.interp stmts = (i2, Except.ok v)) :
    (truthy v = true → Event.printResult v ∈ (run S st src 2).2) ∧
    (truthy v = false → ∀ w, Event.printResult w ∉ (run S st src 2).2) ∧
    truthy (Value.num 0) = false ∧ truthy (Value.boolean false) = false ∧
    truthy (Value.str "") = false ∧ truthy Value.nullV = false ∧
    truthy Value.undef = false := by
  have hrun := run_eq_interpOk S st src 2 toks stmts i2 v htok hpar hfl hint
  refine ⟨?_, ?_, by decide, by decide, by decide, by decide, by decide⟩
  · intro htr
    rw [hrun]
    simp [htr]
  · intro hfalse w
    rw [hrun]
    simp [hfalse]

/-- C9 witness: a concrete truthy result is echoed, a concrete falsy
result (the number 0) is not. -/
theorem repl_echo_truthiness_witness :
    Event.printResult (Value.num 1) ∈ (run cleanStages initEngine "1" 2).2 ∧
    Event.printResult (Value.num 0) ∉ (run zeroStages initEngine "0" 2).2 :=
  ⟨(repl_echo_truthiness cleanStages initEngine "1" [⟨TokenKind.eof, "", none, 1⟩]
      [Stmt.exprStmt (Expr.lit (Value.num 1))] ⟨[]⟩ (Value.num 1)
      rfl rfl rfl rfl).1 (by decide),
   (repl_echo_truthiness zeroStages initEngine "0" [] [] ⟨[]⟩ (Value.num 0)
      rfl rfl rfl rfl).2.1 (by decide) (Value.num 0)⟩

/-- C10: after processing each non-exit REPL line, whether or not it
produced errors, the handler resets both hadError and hadRuntimeError to
false before prompting again, the loop continues from that reset state,
and therefore a later line whose tokenize and parse stages succeed
cleanly is interpreted no matter what any earlier line did (src/index.js
lines 43-52). -/
theorem repl_flag_reset (S : Stages) (st : EngineState) (l l2 : String)
    (rest : List String) (hne : isExitLine l = false) :
    (promptStep S st l).1.hadError = false ∧
    (promptStep S st l).1.hadRuntimeError = false ∧
    (runPrompt S st (l :: rest)).1 = (runPrompt S (promptStep S st l).1 rest).1 ∧
    (∀ toks stmts, S.tokenize l2 = Except.ok (toks, []) →
      S.parse toks = Except.ok (stmts, []) →
      Event.interpretCall ∈ (run S (promptStep S st l).1 l2 2).2) := by
  refine ⟨rfl, rfl, ?_, ?_⟩
  · rw [runPrompt_cons_of_ne S st l rest hne]
  · intro toks stmts ht hp
    rw [run_interpretCall_iff]
    exact ⟨toks, stmts, ht, hp, rfl⟩

/-- C10 witness: after a line whose tokenizer threw, the next clean line
is still interpreted. -/
theorem repl_flag_reset_witness :
    (promptStep mixedStages initEngine "@").1.hadError = false ∧
    Event.interpretCall ∈
      (run mixedStages (promptStep mixedStages initEngine "@").1 "x" 2).2 :=
  ⟨(repl_flag_reset mixedStages initEngine "@" "x" [] (by decide)).1,
   (repl_flag_reset mixedStages initEngine "@" "x" [] (by decide)).2.2.2
      [] [] rfl rfl⟩

end MiniJS
